import Mathlib

/-!
Verification development for the LootQuest points-ledger server.

The definitions below are a shallow embedding of the ledger core of
`server.js`: the users / transactions / withdrawals tables, the
`GET /api/postback/lootably` handler (the first registered one, which is the
handler Express actually dispatches to), the referral unlock / commission
block inside it, the `POST /api/withdraw` handler, and the new-user signup
bonus block of `POST /api/auth/login`.

Machine numbers are modelled as `Int` (SQLite INTEGER) and `ℚ` (the result
of `parseFloat`); `Math.floor` is `Int.floor`, `Math.ceil` is `Int.ceil`.
Query-string / body parameters are `Option String`, where `none` stands for
an absent parameter and JavaScript truthiness of a parameter is
`truthy` below (absent or empty string are falsy).
-/

namespace LootQuest

/-- The `SIGNUP_BONUS` constant of server.js (welcome bonus points). -/
def SIGNUP_BONUS : Int := 50

/-- The `SEVEN_DAYS_MS` constant of server.js. -/
def SEVEN_DAYS_MS : Int := 7 * 24 * 60 * 60 * 1000

/-- The `POINTS_PER_DOLLAR` constant of server.js (1000 points = $1.00). -/
def POINTS_PER_DOLLAR : Int := 1000

/-- The `USER_SPLIT` constant of server.js (user receives 60% of offer value). -/
def USER_SPLIT : ℚ := 60 / 100

/-- The `REFERRAL_BONUS` constant of server.js. -/
def REFERRAL_BONUS : Int := 50

/-- The `REFERRAL_THRESHOLD` constant of server.js. -/
def REFERRAL_THRESHOLD : Int := 500

/-- The `REFERRAL_COMMISSION_RATE` constant of server.js (5%). -/
def REFERRAL_COMMISSION_RATE : ℚ := 5 / 100

/-- Direction of a ledger entry: the `type` column of `transactions`,
`CHECK(type IN ('credit','debit'))`. -/
inductive TxType where
  | credit
  | debit
deriving DecidableEq

/-- A row of the `transactions` table (the columns the ledger logic reads:
`id`, `user_id`, `amount`, `type`, `source`). -/
structure TxEntry where
  id : String
  user_id : String
  amount : Int
  typ : TxType
  source : String
deriving DecidableEq

/-- The ledger-relevant columns of a `users` row. -/
structure User where
  balance : Int
  total_earned : Int
  total_withdrawn : Int
  lifetime_earnings : Int
  referral_unlocked : Bool
  referred_by_user_id : Option String
  created_at : Int
  first_withdrawal_at : Option Int
deriving DecidableEq

/-- A row of the `withdrawals` table (ledger-relevant columns). -/
structure Withdrawal where
  user_id : String
  reward_id : String
  points_spent : Int
  status : String
deriving DecidableEq

/-- The database state: `users` keyed by `id` (an association list, first
match wins as in `db.get`), plus the `transactions` and `withdrawals`
tables. -/
structure DB where
  users : List (String × User)
  transactions : List TxEntry
  withdrawals : List Withdrawal
deriving DecidableEq

/-- The empty database (freshly initialised schema). -/
def DB.empty : DB := ⟨[], [], []⟩

/-- Server configuration: `LOOTABLY_SECRET` and `LOOTABLY_IP_WHITELIST`. -/
structure Config where
  lootablySecret : String
  ipWhitelist : List String
deriving DecidableEq

/-- JavaScript truthiness of an optional string parameter: `!x` is true
exactly when the parameter is absent or the empty string. -/
def truthy : Option String → Bool
  | none => false
  | some s => s != ""

/-- Lookup `db.get('SELECT ... FROM users WHERE id = ?')`: first row whose key
matches. -/
def findUser (db : DB) (uid : String) : Option User :=
  (db.users.find? (fun p => p.1 = uid)).map (fun p => p.2)

/-- Update `UPDATE users SET ... WHERE id = ?`: rewrite every row whose key
matches (the key is a primary key, so in a well-formed database this is at
most one row). -/
def updateUser (uid : String) (f : User → User) (db : DB) : DB :=
  { db with users := db.users.map (fun p => if p.1 = uid then (p.1, f p.2) else p) }

/-- Query `SELECT id FROM transactions WHERE id = ?` returning a row or not:
the idempotency lookup. -/
def txExists (db : DB) (txid : String) : Bool :=
  db.transactions.any (fun t => t.id = txid)

/-- Insert `INSERT INTO transactions ...`. -/
def insertTx (e : TxEntry) (db : DB) : DB :=
  { db with transactions := e :: db.transactions }

/-- Query parameters of `GET /api/postback/lootably`. `payout` is the raw
string parameter; `payoutNum` is the value of `parseFloat(payout)`
(`none` when the parse yields `NaN`). -/
structure PostbackReq where
  user_id : Option String
  payout : Option String
  payoutNum : Option ℚ
  transaction_id : Option String
  secret : Option String
  clientIP : String
deriving DecidableEq

/-- Outcomes of the postback handler, one per `return res....` site of the
first registered `GET /api/postback/lootably` handler. -/
inductive PostbackRes where
  | missingParams
  | invalidSecret
  | ipNotAllowed
  | invalidPayout
  | userNotFound
  | alreadyProcessed
  | credited (points : Int)
deriving DecidableEq

/-- The commission computed at line 1641:
`Math.floor(points * REFERRAL_COMMISSION_RATE)`. -/
def commissionOf (points : Int) : Int :=
  ⌊(points : ℚ) * REFERRAL_COMMISSION_RATE⌋

/-- The mutation section of the first `GET /api/postback/lootably` handler
(lines 1589–1655 of server.js): insert the `lootably` credit entry, bump
`balance` / `total_earned` / `lifetime_earnings`, then run the referral
unlock-and-commission block on the re-fetched user row. -/
def creditAndReferral (now : Int) (uid txid : String) (points : Int) (db : DB) : DB :=
  let db1 := insertTx ⟨txid, uid, points, .credit, "lootably"⟩ db
  let db2 := updateUser uid (fun u =>
    { u with
      balance := u.balance + points
      total_earned := u.total_earned + points
      lifetime_earnings := u.lifetime_earnings + points }) db1
  match findUser db2 uid with
  | none => db2
  | some u2 =>
    match u2.referred_by_user_id with
    | none => db2
    | some referrerId =>
      let db3 :=
        if u2.lifetime_earnings ≥ REFERRAL_THRESHOLD ∧ u2.referral_unlocked = false then
          let dbA := updateUser referrerId (fun r =>
            { r with
              balance := r.balance + REFERRAL_BONUS
              total_earned := r.total_earned + REFERRAL_BONUS }) db2
          let dbB := insertTx ⟨"ref_bonus_" ++ referrerId ++ "_" ++ toString now,
            referrerId, REFERRAL_BONUS, .credit, "referral_bonus"⟩ dbA
          updateUser uid (fun u => { u with referral_unlocked := true }) dbB
        else db2
      let c := commissionOf points
      if c > 0 then
        let dbC := updateUser referrerId (fun r =>
          { r with
            balance := r.balance + c
            total_earned := r.total_earned + c }) db3
        insertTx ⟨"ref_comm_" ++ referrerId ++ "_" ++ toString now,
          referrerId, c, .credit, "referral_commission"⟩ dbC
      else db3

/-- The first registered `GET /api/postback/lootably` handler (server.js
lines 1542–1663) — the handler Express dispatches requests to.  Validation
order as in the source: required-parameter truthiness, secret, IP
whitelist, payout parse/positivity, user existence, duplicate transaction;
then the credit and referral mutations. -/
def postback (cfg : Config) (now : Int) (req : PostbackReq) (db : DB) :
    PostbackRes × DB :=
  if ¬ (truthy req.user_id && truthy req.payout &&
        truthy req.transaction_id && truthy req.secret) then
    (.missingParams, db)
  else if req.secret.getD "" ≠ cfg.lootablySecret then
    (.invalidSecret, db)
  else if cfg.ipWhitelist ≠ [] ∧ req.clientIP ∉ cfg.ipWhitelist then
    (.ipNotAllowed, db)
  else
    match req.payoutNum with
    | none => (.invalidPayout, db)
    | some q =>
      let points : Int := ⌊q⌋
      if points ≤ 0 then (.invalidPayout, db)
      else
        let uid := req.user_id.getD ""
        match findUser db uid with
        | none => (.userNotFound, db)
        | some _ =>
          let txid := req.transaction_id.getD ""
          if txExists db txid then (.alreadyProcessed, db)
          else (.credited points, creditAndReferral now uid txid points db)

/-- A row of the server-side rewards catalog (`rewards.json`). -/
structure Reward where
  id : String
  name : String
  price : Int
  stock : Int
deriving DecidableEq

/-- Function `getRewardById` of server.js: first catalog entry with the given id. -/
def getRewardById (catalog : List Reward) (rewardId : String) : Option Reward :=
  catalog.find? (fun r => r.id = rewardId)

/-- Outcomes of `POST /api/withdraw`, one per `return res....` site. -/
inductive WithdrawRes where
  | missingRewardId
  | rewardNotFound
  | outOfStock
  | userNotFound
  | cooldownActive (daysRemaining : Int)
  | insufficientBalance
  | ok (pointsSpent : Int)
deriving DecidableEq

/-- The `POST /api/withdraw` handler (server.js lines 1702–1803): reward
lookup, stock check, user lookup, 7-day first-withdrawal rule, balance
check, then debit + ledger entry + withdrawal record. -/
def withdraw (catalog : List Reward) (now : Int) (userId : String)
    (rewardId : Option String) (db : DB) : WithdrawRes × DB :=
  if ¬ truthy rewardId then (.missingRewardId, db)
  else
    match getRewardById catalog (rewardId.getD "") with
    | none => (.rewardNotFound, db)
    | some reward =>
      if reward.stock = 0 then (.outOfStock, db)
      else
        match findUser db userId with
        | none => (.userNotFound, db)
        | some user =>
          let cooldownHit :=
            match user.first_withdrawal_at with
            | none =>
              let accountAge := now - user.created_at
              if accountAge < SEVEN_DAYS_MS then
                some (⌈((SEVEN_DAYS_MS - accountAge : Int) : ℚ) / (24 * 60 * 60 * 1000)⌉)
              else none
            | some _ => none
          match cooldownHit with
          | some d => (.cooldownActive d, db)
          | none =>
            if user.balance < reward.price then (.insufficientBalance, db)
            else
              let db1 := updateUser userId (fun u =>
                { u with
                  balance := u.balance - reward.price
                  total_withdrawn := u.total_withdrawn + reward.price
                  first_withdrawal_at := some (u.first_withdrawal_at.getD now) }) db
              let db2 := insertTx ⟨"withdraw_" ++ userId ++ "_" ++ toString now,
                userId, reward.price, .debit, "withdrawal"⟩ db1
              let db3 := { db2 with
                withdrawals := db2.withdrawals ++
                  [⟨userId, rewardId.getD "", reward.price, "pending"⟩] }
              (.ok reward.price, db3)

/-- New-user creation inside `POST /api/auth/login` (server.js lines
793–806): insert the user row with `balance = SIGNUP_BONUS`, insert the
`signup_bonus` credit entry, then bump `total_earned`.  `referredBy` is
the outcome of the preceding referral anti-fraud check. -/
def signup (userId : String) (now : Int) (referredBy : Option String) (db : DB) : DB :=
  let newUser : User :=
    { balance := SIGNUP_BONUS
      total_earned := 0
      total_withdrawn := 0
      lifetime_earnings := 0
      referral_unlocked := false
      referred_by_user_id := referredBy
      created_at := now
      first_withdrawal_at := none }
  let db1 : DB := { db with users := db.users ++ [(userId, newUser)] }
  let db2 := insertTx ⟨"bonus_" ++ userId ++ "_" ++ toString now,
    userId, SIGNUP_BONUS, .credit, "signup_bonus"⟩ db1
  updateUser userId (fun u => { u with total_earned := u.total_earned + SIGNUP_BONUS }) db2

/-- The signed contribution of a ledger entry to its owner's balance:
credits count positively, debits negatively. -/
def signedAmount (e : TxEntry) : Int :=
  match e.typ with
  | .credit => e.amount
  | .debit => -e.amount

/-- The signed sum of all ledger entries owned by a user. -/
def ledgerSum (db : DB) (uid : String) : Int :=
  ((db.transactions.filter (fun t => t.user_id = uid)).map signedAmount).sum

/-- The ledger invariant of the spec: every user's balance is non-negative
(`CHECK(balance >= 0)`) and equals the signed sum of their ledger
entries. -/
def balancesOk (db : DB) : Prop :=
  ∀ p ∈ db.users, 0 ≤ p.2.balance ∧ p.2.balance = ledgerSum db p.1

/-- Well-formedness: `users.id` is a primary key, so user keys are
pairwise distinct. -/
def keysNodup (db : DB) : Prop :=
  (db.users.map Prod.fst).Nodup

/-- The referral-unlock flag of a user (false when the user does not
exist). -/
def unlockedFlag (db : DB) (uid : String) : Bool :=
  match findUser db uid with
  | none => false
  | some u => u.referral_unlocked

/-- Number of `referral_bonus` ledger entries in the database. -/
def bonusCount (db : DB) : Nat :=
  (db.transactions.filter (fun e => e.source = "referral_bonus")).length

/-- One ledger-mutating operation of the server, for stating invariants
that hold after every completed operation. -/
inductive Op where
  | opSignup (userId : String) (now : Int) (referredBy : Option String)
  | opPostback (req : PostbackReq) (now : Int)
  | opWithdraw (userId : String) (rewardId : Option String) (now : Int)

/-- Run one operation against the database. -/
def applyOp (cfg : Config) (catalog : List Reward) (db : DB) : Op → DB
  | .opSignup uid now rb => signup uid now rb db
  | .opPostback req now => (postback cfg now req db).2
  | .opWithdraw uid rid now => (withdraw catalog now uid rid db).2

/-- Side conditions under which an operation is issued by the server:
signup uses a fresh user id (no existing row, no stray ledger entries);
withdrawal relies on the primary-key property of `users.id`. -/
def opOk (db : DB) : Op → Prop
  | .opSignup uid _ _ => (∀ p ∈ db.users, p.1 ≠ uid) ∧ ledgerSum db uid = 0
  | .opPostback _ _ => True
  | .opWithdraw _ _ _ => keysNodup db

/-- Run a list of postbacks (each with its own clock value) in order. -/
def runPostbacks (cfg : Config) (db : DB) (l : List (PostbackReq × Int)) : DB :=
  l.foldl (fun d p => (postback cfg p.2 p.1 d).2) db

end LootQuest

namespace LootQuest

theorem findUser_insertTx (e : TxEntry) (db : DB) (v : String) :
    findUser (insertTx e db) v = findUser db v := rfl

theorem insertTx_updateUser_comm (e : TxEntry) (uid : String) (f : User → User) (db : DB) :
    insertTx e (updateUser uid f db) = updateUser uid f (insertTx e db) := rfl

theorem find?_map_update (uid v : String) (f : User → User) (l : List (String × User)) :
    (l.map (fun p => if p.1 = uid then (p.1, f p.2) else p)).find? (fun p => p.1 = v) =
      if v = uid then (l.find? (fun p => p.1 = v)).map (fun p => (p.1, f p.2))
      else l.find? (fun p => p.1 = v) := by
  induction l with
  | nil => by_cases h : v = uid <;> simp [h]
  | cons hd tl ih =>
    obtain ⟨k, u⟩ := hd
    by_cases h2 : k = uid
    · by_cases h1 : k = v
      · subst h2; subst h1; simp
      · subst h2
        have hv : ¬ v = k := fun hc => h1 hc.symm
        simp [List.find?_cons, h1, hv, ih]
    · by_cases h1 : k = v
      · subst h1
        have hv : ¬ k = uid := h2
        simp [List.find?_cons, hv]
      · have e1 : (if (k, u).1 = uid then ((k, u).1, f (k, u).2) else (k, u)) = (k, u) := by
          simp [h2]
        rw [List.map_cons, e1]
        have hp : (decide ((k, u).1 = v)) = false := by simp [h1]
        simp only [List.find?_cons, hp]
        exact ih

theorem findUser_updateUser (db : DB) (uid v : String) (f : User → User) :
    findUser (updateUser uid f db) v =
      if v = uid then (findUser db v).map f else findUser db v := by
  unfold findUser updateUser
  rw [show (({ db with users := db.users.map (fun p => if p.1 = uid then (p.1, f p.2) else p) } : DB).users) = db.users.map (fun p => if p.1 = uid then (p.1, f p.2) else p) from rfl]
  rw [find?_map_update]
  by_cases h : v = uid <;> simp [h, Option.map_map, Function.comp_def]

theorem keys_updateUser (db : DB) (uid : String) (f : User → User) :
    (updateUser uid f db).users.map Prod.fst = db.users.map Prod.fst := by
  unfold updateUser
  rw [show (({ db with users := db.users.map (fun p => if p.1 = uid then (p.1, f p.2) else p) } : DB).users) = db.users.map (fun p => if p.1 = uid then (p.1, f p.2) else p) from rfl]
  rw [List.map_map]
  apply List.map_congr_left
  intro p _
  by_cases h : p.1 = uid <;> simp [h]

theorem ledgerSum_insertTx (e : TxEntry) (db : DB) (uid : String) :
    ledgerSum (insertTx e db) uid =
      (if e.user_id = uid then signedAmount e else 0) + ledgerSum db uid := by
  unfold ledgerSum insertTx
  by_cases h : e.user_id = uid <;> simp [List.filter_cons, h]

theorem ledgerSum_updateUser (db : DB) (uid v : String) (f : User → User) :
    ledgerSum (updateUser uid f db) v = ledgerSum db v := rfl

theorem bonusCount_insertTx (e : TxEntry) (db : DB) :
    bonusCount (insertTx e db) =
      (if e.source = "referral_bonus" then 1 else 0) + bonusCount db := by
  unfold bonusCount insertTx
  by_cases h : e.source = "referral_bonus" <;> simp [List.filter_cons, h, Nat.add_comm]

theorem bonusCount_updateUser (db : DB) (uid : String) (f : User → User) :
    bonusCount (updateUser uid f db) = bonusCount db := rfl

theorem findUser_isSome_iff (db : DB) (v : String) :
    (findUser db v).isSome = true ↔ v ∈ db.users.map Prod.fst := by
  unfold findUser
  rw [show ∀ o : Option (String × User), (o.map (fun p => p.2)).isSome = o.isSome from fun o => by cases o <;> simp]
  simp [List.find?_isSome, List.mem_map]

end LootQuest

namespace LootQuest

theorem find?_eq_of_nodup (l : List (String × User)) (p : String × User)
    (hn : (l.map Prod.fst).Nodup) (hp : p ∈ l) :
    l.find? (fun q => q.1 = p.1) = some p := by
  induction l with
  | nil => cases hp
  | cons hd tl ih =>
    rw [List.map_cons, List.nodup_cons] at hn
    rcases List.mem_cons.mp hp with h | h
    · subst h; simp
    · have hne : ¬ (hd.1 = p.1) := fun hc =>
        hn.1 (hc ▸ List.mem_map_of_mem Prod.fst h)
      have hp' : (decide (hd.1 = p.1)) = false := by simp [hne]
      simp only [List.find?_cons, hp']
      exact ih hn.2 h

theorem findUser_eq_of_nodup (db : DB) (p : String × User)
    (hn : keysNodup db) (hp : p ∈ db.users) : findUser db p.1 = some p.2 := by
  unfold findUser
  rw [find?_eq_of_nodup db.users p hn hp]
  rfl

theorem balancesOk_insert_update (db : DB) (uid : String) (e : TxEntry) (f : User → User)
    (hok : balancesOk db)
    (hid : e.user_id = uid)
    (hbal : ∀ u : User, (f u).balance = u.balance + signedAmount e)
    (hnn : ∀ p ∈ db.users, p.1 = uid → 0 ≤ p.2.balance + signedAmount e) :
    balancesOk (updateUser uid f (insertTx e db)) := by
  intro p' hp'
  have husers : (updateUser uid f (insertTx e db)).users
      = db.users.map (fun p => if p.1 = uid then (p.1, f p.2) else p) := rfl
  rw [husers] at hp'
  rcases List.mem_map.mp hp' with ⟨p, hp, hpe⟩
  have hsum : ledgerSum (updateUser uid f (insertTx e db)) p.1
      = (if e.user_id = p.1 then signedAmount e else 0) + ledgerSum db p.1 := by
    rw [ledgerSum_updateUser, ledgerSum_insertTx]
  by_cases h : p.1 = uid
  · rw [if_pos h] at hpe
    subst hpe
    refine ⟨?_, ?_⟩
    · rw [hbal]
      exact hnn p hp h
    · rw [hsum, if_pos (hid.trans h.symm), hbal, (hok p hp).2]
      ring
  · rw [if_neg h] at hpe
    subst hpe
    rw [hsum, if_neg (fun hc => h ((hid ▸ hc : (uid : String) = p.1)).symm)]
    simpa using hok p hp

theorem balancesOk_updateUser_frame (db : DB) (uid : String) (f : User → User)
    (hok : balancesOk db) (hbal : ∀ u, (f u).balance = u.balance) :
    balancesOk (updateUser uid f db) := by
  intro p' hp'
  have husers : (updateUser uid f db).users
      = db.users.map (fun p => if p.1 = uid then (p.1, f p.2) else p) := rfl
  rw [husers] at hp'
  rcases List.mem_map.mp hp' with ⟨p, hp, hpe⟩
  have hsum : ledgerSum (updateUser uid f db) p.1 = ledgerSum db p.1 := rfl
  by_cases h : p.1 = uid
  · rw [if_pos h] at hpe
    subst hpe
    refine ⟨?_, ?_⟩
    · rw [hbal]; exact (hok p hp).1
    · rw [hsum, hbal]; exact (hok p hp).2
  · rw [if_neg h] at hpe
    subst hpe
    rw [hsum]
    simpa using hok p hp

theorem balancesOk_refCredit (db : DB) (rid : String) (amt : Int) (eid src : String)
    (hok : balancesOk db) (hamt : 0 ≤ amt) :
    balancesOk (insertTx ⟨eid, rid, amt, .credit, src⟩
      (updateUser rid (fun r =>
        { r with balance := r.balance + amt, total_earned := r.total_earned + amt }) db)) := by
  rw [insertTx_updateUser_comm]
  apply balancesOk_insert_update db rid ⟨eid, rid, amt, .credit, src⟩ _ hok rfl
  · intro u; rfl
  · intro p hp _
    have h1 := (hok p hp).1
    have hs : signedAmount ⟨eid, rid, amt, .credit, src⟩ = amt := rfl
    rw [hs]
    omega

end LootQuest

namespace LootQuest

theorem balancesOk_creditAndReferral (now : Int) (uid txid : String) (points : Int) (db : DB)
    (hok : balancesOk db) (hpts : 0 < points) :
    balancesOk (creditAndReferral now uid txid points db) := by
  have hok2 : balancesOk (updateUser uid (fun u =>
      { u with
        balance := u.balance + points
        total_earned := u.total_earned + points
        lifetime_earnings := u.lifetime_earnings + points })
      (insertTx ⟨txid, uid, points, .credit, "lootably"⟩ db)) := by
    apply balancesOk_insert_update db uid ⟨txid, uid, points, .credit, "lootably"⟩ _ hok rfl
    · intro u; rfl
    · intro p hp _
      have h1 := (hok p hp).1
      have hs : signedAmount ⟨txid, uid, points, .credit, "lootably"⟩ = points := rfl
      rw [hs]; omega
  unfold creditAndReferral
  dsimp only
  split
  · exact hok2
  case _ u2 heq =>
    split
    · exact hok2
    case _ rid heq2 =>
      have hok3 : balancesOk (if u2.lifetime_earnings ≥ REFERRAL_THRESHOLD ∧ u2.referral_unlocked = false then
          updateUser uid (fun u => { u with referral_unlocked := true })
            (insertTx ⟨"ref_bonus_" ++ rid ++ "_" ++ toString now, rid, REFERRAL_BONUS, .credit, "referral_bonus"⟩
              (updateUser rid (fun r =>
                { r with balance := r.balance + REFERRAL_BONUS, total_earned := r.total_earned + REFERRAL_BONUS })
                (updateUser uid (fun u =>
                  { u with
                    balance := u.balance + points
                    total_earned := u.total_earned + points
                    lifetime_earnings := u.lifetime_earnings + points })
                  (insertTx ⟨txid, uid, points, .credit, "lootably"⟩ db))))
        else (updateUser uid (fun u =>
                  { u with
                    balance := u.balance + points
                    total_earned := u.total_earned + points
                    lifetime_earnings := u.lifetime_earnings + points })
                  (insertTx ⟨txid, uid, points, .credit, "lootably"⟩ db))) := by
        split
        · refine balancesOk_updateUser_frame _ uid
            (fun u => { u with referral_unlocked := true }) ?_ (fun u => rfl)
          exact balancesOk_refCredit _ _ _ _ _ hok2 (by norm_num [REFERRAL_BONUS])
        · exact hok2
      split
      · apply balancesOk_refCredit
        · exact hok3
        · rename_i hc
          omega
      · exact hok3



theorem postback_snd_cases (cfg : Config) (now : Int) (req : PostbackReq) (db : DB) :
    (postback cfg now req db).2 = db ∨
    ∃ q : ℚ, req.payoutNum = some q ∧ 0 < ⌊q⌋ ∧
      txExists db (req.transaction_id.getD "") = false ∧
      (postback cfg now req db).2 =
        creditAndReferral now (req.user_id.getD "") (req.transaction_id.getD "") ⌊q⌋ db := by
  unfold postback
  split
  · left; rfl
  split
  · left; rfl
  split
  · left; rfl
  split
  · left; rfl
  case _ q heq =>
    dsimp only
    split
    · left; rfl
    split
    · left; rfl
    split
    · left; rfl
    case _ hdup =>
      right
      refine ⟨q, heq, by omega, by simpa using hdup, rfl⟩

theorem withdraw_snd_cases (catalog : List Reward) (now : Int) (userId : String)
    (rewardId : Option String) (db : DB) :
    (withdraw catalog now userId rewardId db).2 = db ∨
    ∃ reward user, getRewardById catalog (rewardId.getD "") = some reward ∧
      findUser db userId = some user ∧ ¬ user.balance < reward.price ∧
      (withdraw catalog now userId rewardId db).2 =
        { insertTx ⟨"withdraw_" ++ userId ++ "_" ++ toString now, userId, reward.price, .debit, "withdrawal"⟩
            (updateUser userId (fun u =>
              { u with
                balance := u.balance - reward.price
                total_withdrawn := u.total_withdrawn + reward.price
                first_withdrawal_at := some (u.first_withdrawal_at.getD now) }) db) with
          withdrawals :=
            (insertTx ⟨"withdraw_" ++ userId ++ "_" ++ toString now, userId, reward.price, .debit, "withdrawal"⟩
              (updateUser userId (fun u =>
                { u with
                  balance := u.balance - reward.price
                  total_withdrawn := u.total_withdrawn + reward.price
                  first_withdrawal_at := some (u.first_withdrawal_at.getD now) }) db)).withdrawals ++
              [⟨userId, rewardId.getD "", reward.price, "pending"⟩] } := by
  unfold withdraw
  split
  · left; rfl
  split
  · left; rfl
  case _ reward heqr =>
    split
    · left; rfl
    split
    · left; rfl
    case _ user hequ =>
      dsimp only
      split
      · left; rfl
      split
      · left; rfl
      case _ hbal =>
        right
        exact ⟨reward, user, heqr, hequ, hbal, rfl⟩


theorem balancesOk_withdrawals_irrel (db : DB) (w : List Withdrawal)
    (hok : balancesOk db) : balancesOk { db with withdrawals := w } := hok

theorem balancesOk_withdraw (catalog : List Reward) (now : Int) (userId : String)
    (rewardId : Option String) (db : DB)
    (hok : balancesOk db) (hn : keysNodup db) :
    balancesOk (withdraw catalog now userId rewardId db).2 := by
  rcases withdraw_snd_cases catalog now userId rewardId db with h | ⟨reward, user, heqr, hequ, hbal, h⟩
  · rw [h]; exact hok
  · rw [h]
    apply balancesOk_withdrawals_irrel
    rw [insertTx_updateUser_comm]
    apply balancesOk_insert_update db userId
      ⟨"withdraw_" ++ userId ++ "_" ++ toString now, userId, reward.price, .debit, "withdrawal"⟩ _ hok rfl
    · intro u
      have hs : signedAmount
          ⟨"withdraw_" ++ userId ++ "_" ++ toString now, userId, reward.price, .debit, "withdrawal"⟩
          = -reward.price := rfl
      rw [hs]
      dsimp only
      omega
    · intro p hp hpe
      have hs : signedAmount
          ⟨"withdraw_" ++ userId ++ "_" ++ toString now, userId, reward.price, .debit, "withdrawal"⟩
          = -reward.price := rfl
      rw [hs]
      have hfind := findUser_eq_of_nodup db p hn hp
      rw [hpe, hequ] at hfind
      have hpu : p.2 = user := by
        injection hfind with h2
        exact h2.symm
      rw [hpu]
      omega

theorem balancesOk_signup (userId : String) (now : Int) (referredBy : Option String) (db : DB)
    (hok : balancesOk db) (hfresh : ∀ p ∈ db.users, p.1 ≠ userId)
    (hzero : ledgerSum db userId = 0) :
    balancesOk (signup userId now referredBy db) := by
  intro p' hp'
  have hsum : ∀ v, ledgerSum (signup userId now referredBy db) v
      = (if userId = v then SIGNUP_BONUS else 0) + ledgerSum db v := by
    intro v
    show ledgerSum (updateUser userId _ (insertTx _ _)) v = _
    rw [ledgerSum_updateUser, ledgerSum_insertTx]
    rfl
  have husers : (signup userId now referredBy db).users =
      (db.users ++ [(userId,
        ({ balance := SIGNUP_BONUS, total_earned := 0, total_withdrawn := 0,
           lifetime_earnings := 0, referral_unlocked := false,
           referred_by_user_id := referredBy, created_at := now,
           first_withdrawal_at := none } : User))]).map
        (fun p => if p.1 = userId then
          (p.1, { p.2 with total_earned := p.2.total_earned + SIGNUP_BONUS }) else p) := rfl
  rw [husers] at hp'
  rcases List.mem_map.mp hp' with ⟨p, hp, hpe⟩
  rcases List.mem_append.mp hp with hold | hnew
  · have hne : ¬ p.1 = userId := hfresh p hold
    rw [if_neg hne] at hpe
    subst hpe
    rw [hsum, if_neg (fun hc => hne hc.symm)]
    simpa using hok p hold
  · have hpeq : p = (userId,
        ({ balance := SIGNUP_BONUS, total_earned := 0, total_withdrawn := 0,
           lifetime_earnings := 0, referral_unlocked := false,
           referred_by_user_id := referredBy, created_at := now,
           first_withdrawal_at := none } : User)) := by simpa using hnew
    subst hpeq
    rw [if_pos rfl] at hpe
    subst hpe
    refine ⟨by norm_num [SIGNUP_BONUS], ?_⟩
    rw [hsum, if_pos rfl, hzero]
    rfl

/-- Claim C9: after every completed ledger operation (signup with its
welcome bonus, postback credit with its referral side-credits, or
withdrawal), every user's balance is non-negative and equals the signed
sum of that user's ledger entries; the invariant holds of the empty
database and is preserved by every operation. -/
theorem balance_matches_ledger_invariant (cfg : Config) (catalog : List Reward)
    (db : DB) (op : Op) (hok : balancesOk db) (hop : opOk db op) :
    balancesOk (applyOp cfg catalog db op) ∧ balancesOk DB.empty := by
  constructor
  · cases op with
    | opSignup uid now rb => exact balancesOk_signup uid now rb db hok hop.1 hop.2
    | opPostback req now =>
      show balancesOk (postback cfg now req db).2
      rcases postback_snd_cases cfg now req db with h | ⟨q, _, hq, _, h⟩
      · rw [h]; exact hok
      · rw [h]; exact balancesOk_creditAndReferral _ _ _ _ _ hok hq
    | opWithdraw uid rid now =>
      exact balancesOk_withdraw catalog now uid rid db hok hop
  · intro p hp
    cases hp


theorem not_ip_blocked (cfg : Config) (req : PostbackReq)
    (h6 : cfg.ipWhitelist = [] ∨ req.clientIP ∈ cfg.ipWhitelist) :
    ¬ (cfg.ipWhitelist ≠ [] ∧ req.clientIP ∉ cfg.ipWhitelist) := by
  rcases h6 with h | h
  · intro hc; exact hc.1 h
  · intro hc; exact hc.2 h

theorem postback_eq_of_valid (cfg : Config) (now : Int) (req : PostbackReq) (db : DB) (q : ℚ)
    (h1 : truthy req.user_id = true) (h2 : truthy req.payout = true)
    (h3 : truthy req.transaction_id = true) (h4 : truthy req.secret = true)
    (h5 : req.secret.getD "" = cfg.lootablySecret)
    (h6 : cfg.ipWhitelist = [] ∨ req.clientIP ∈ cfg.ipWhitelist)
    (h7 : req.payoutNum = some q) (h8 : 0 < ⌊q⌋)
    (h9 : (findUser db (req.user_id.getD "")).isSome = true)
    (h10 : txExists db (req.transaction_id.getD "") = false) :
    postback cfg now req db =
      (.credited ⌊q⌋,
        creditAndReferral now (req.user_id.getD "") (req.transaction_id.getD "") ⌊q⌋ db) := by
  obtain ⟨u, hu⟩ := Option.isSome_iff_exists.mp h9
  simp only [postback, h1, h2, h3, h4, h5, h7, hu, h10, not_ip_blocked cfg req h6]
  simp [hu, h10, not_le.mpr h8]

theorem postback_already_of_valid (cfg : Config) (now : Int) (req : PostbackReq) (db : DB) (q : ℚ)
    (h1 : truthy req.user_id = true) (h2 : truthy req.payout = true)
    (h3 : truthy req.transaction_id = true) (h4 : truthy req.secret = true)
    (h5 : req.secret.getD "" = cfg.lootablySecret)
    (h6 : cfg.ipWhitelist = [] ∨ req.clientIP ∈ cfg.ipWhitelist)
    (h7 : req.payoutNum = some q) (h8 : 0 < ⌊q⌋)
    (h9 : (findUser db (req.user_id.getD "")).isSome = true)
    (h10 : txExists db (req.transaction_id.getD "") = true) :
    postback cfg now req db = (.alreadyProcessed, db) := by
  obtain ⟨u, hu⟩ := Option.isSome_iff_exists.mp h9
  simp only [postback, h1, h2, h3, h4, h5, h7, hu, h10, not_ip_blocked cfg req h6]
  simp [hu, h10, not_le.mpr h8]

theorem postback_no_mutation_of_dup (cfg : Config) (now : Int) (req : PostbackReq) (db : DB)
    (h : txExists db (req.transaction_id.getD "") = true) :
    (postback cfg now req db).2 = db := by
  rcases postback_snd_cases cfg now req db with hc | ⟨q, hq, hpos, hdup, hc⟩
  · exact hc
  · rw [h] at hdup
    cases hdup

theorem users_insertTx (e : TxEntry) (db : DB) : (insertTx e db).users = db.users := rfl

theorem txExists_updateUser (uid : String) (f : User → User) (db : DB) (t : String) :
    txExists (updateUser uid f db) t = txExists db t := rfl

theorem txExists_insertTx (e : TxEntry) (db : DB) (t : String) :
    txExists (insertTx e db) t = (decide (e.id = t) || txExists db t) := by
  simp [txExists, insertTx]

theorem keys_creditAndReferral (now : Int) (uid txid : String) (points : Int) (db : DB) :
    (creditAndReferral now uid txid points db).users.map Prod.fst = db.users.map Prod.fst := by
  unfold creditAndReferral
  dsimp only
  repeat' split
  all_goals simp only [users_insertTx, keys_updateUser]

theorem txExists_creditAndReferral_self (now : Int) (uid txid : String) (points : Int) (db : DB) :
    txExists (creditAndReferral now uid txid points db) txid = true := by
  unfold creditAndReferral
  dsimp only
  repeat' split
  all_goals simp [txExists_updateUser, txExists_insertTx]

/-- Claim C2: submitting a postback with the same `transaction_id` twice —
the first call succeeding — yields exactly the one ledger mutation of the
first call: the replayed call (same request) returns the
already-processed success marker and leaves the database untouched, and
in fact any second request carrying the same `transaction_id` mutates
nothing (no balance change, no ledger entry, no referral state change). -/
theorem postback_replay_idempotent (cfg : Config) (now : Int) (req : PostbackReq) (db : DB) (q : ℚ)
    (h1 : truthy req.user_id = true) (h2 : truthy req.payout = true)
    (h3 : truthy req.transaction_id = true) (h4 : truthy req.secret = true)
    (h5 : req.secret.getD "" = cfg.lootablySecret)
    (h6 : cfg.ipWhitelist = [] ∨ req.clientIP ∈ cfg.ipWhitelist)
    (h7 : req.payoutNum = some q) (h8 : 0 < ⌊q⌋)
    (h9 : (findUser db (req.user_id.getD "")).isSome = true)
    (h10 : txExists db (req.transaction_id.getD "") = false) :
    (postback cfg now req db).1 = .credited ⌊q⌋ ∧
    (∀ now2, postback cfg now2 req (postback cfg now req db).2
        = (.alreadyProcessed, (postback cfg now req db).2)) ∧
    (∀ now2 req2, req2.transaction_id = req.transaction_id →
      (postback cfg now2 req2 (postback cfg now req db).2).2 = (postback cfg now req db).2) := by
  have heval := postback_eq_of_valid cfg now req db q h1 h2 h3 h4 h5 h6 h7 h8 h9 h10
  have hdb1 : (postback cfg now req db).2 =
      creditAndReferral now (req.user_id.getD "") (req.transaction_id.getD "") ⌊q⌋ db := by
    rw [heval]
  have htx : txExists (postback cfg now req db).2 (req.transaction_id.getD "") = true := by
    rw [hdb1]
    exact txExists_creditAndReferral_self now _ _ ⌊q⌋ db
  refine ⟨by rw [heval], ?_, ?_⟩
  · intro now2
    apply postback_already_of_valid cfg now2 req _ q h1 h2 h3 h4 h5 h6 h7 h8 ?_ htx
    rw [hdb1, findUser_isSome_iff]
    rw [keys_creditAndReferral]
    exact (findUser_isSome_iff db _).mp h9
  · intro now2 req2 htxid
    apply postback_no_mutation_of_dup
    rw [htxid]
    exact htx

theorem creditAndReferral_user (now : Int) (uid txid : String) (points : Int) (db : DB) (u : User)
    (hu : findUser db uid = some u)
    (hself : ∀ rid, u.referred_by_user_id = some rid → rid ≠ uid) :
    ∃ u2, findUser (creditAndReferral now uid txid points db) uid = some u2 ∧
      u2.balance = u.balance + points ∧
      u2.total_earned = u.total_earned + points ∧
      u2.lifetime_earnings = u.lifetime_earnings + points ∧
      u2.referred_by_user_id = u.referred_by_user_id ∧
      u2.total_withdrawn = u.total_withdrawn ∧
      u2.created_at = u.created_at ∧
      u2.first_withdrawal_at = u.first_withdrawal_at := by
  have h2 : findUser (updateUser uid (fun v =>
      { v with
        balance := v.balance + points
        total_earned := v.total_earned + points
        lifetime_earnings := v.lifetime_earnings + points })
      (insertTx ⟨txid, uid, points, .credit, "lootably"⟩ db)) uid = some
      { u with
        balance := u.balance + points
        total_earned := u.total_earned + points
        lifetime_earnings := u.lifetime_earnings + points } := by
    rw [findUser_updateUser, if_pos rfl, findUser_insertTx, hu]
    rfl
  unfold creditAndReferral
  dsimp only
  rw [h2]
  dsimp only
  cases hr : u.referred_by_user_id with
  | none =>
    exact ⟨_, h2, rfl, rfl, rfl, hr, rfl, rfl, rfl⟩
  | some rid =>
    have hne : ¬ (uid = rid) := fun hc => hself rid hr hc.symm
    dsimp only
    split
    · split
      · refine Exists.intro
          { u with
            balance := u.balance + points
            total_earned := u.total_earned + points
            lifetime_earnings := u.lifetime_earnings + points
            referral_unlocked := true }
          ⟨?_, rfl, rfl, rfl, hr, rfl, rfl, rfl⟩
        rw [findUser_insertTx, findUser_updateUser, if_neg hne, findUser_updateUser,
            if_pos rfl, findUser_insertTx, findUser_updateUser, if_neg hne, h2]
        rfl
      · refine Exists.intro
          { u with
            balance := u.balance + points
            total_earned := u.total_earned + points
            lifetime_earnings := u.lifetime_earnings + points }
          ⟨?_, rfl, rfl, rfl, hr, rfl, rfl, rfl⟩
        rw [findUser_insertTx, findUser_updateUser, if_neg hne, h2]
    · split
      · refine Exists.intro
          { u with
            balance := u.balance + points
            total_earned := u.total_earned + points
            lifetime_earnings := u.lifetime_earnings + points
            referral_unlocked := true }
          ⟨?_, rfl, rfl, rfl, hr, rfl, rfl, rfl⟩
        rw [findUser_updateUser, if_pos rfl, findUser_insertTx, findUser_updateUser,
            if_neg hne, h2]
        rfl
      · refine Exists.intro
          { u with
            balance := u.balance + points
            total_earned := u.total_earned + points
            lifetime_earnings := u.lifetime_earnings + points }
          ⟨h2, rfl, rfl, rfl, hr, rfl, rfl, rfl⟩


theorem creditAndReferral_referrer (now : Int) (uid txid : String) (points : Int) (db : DB)
    (u rU : User) (rid : String)
    (hu : findUser db uid = some u)
    (hr : u.referred_by_user_id = some rid)
    (hne : ¬ rid = uid)
    (hrU : findUser db rid = some rU) :
    findUser (creditAndReferral now uid txid points db) rid = some
      { rU with
        balance := rU.balance
          + (if u.lifetime_earnings + points ≥ REFERRAL_THRESHOLD ∧ u.referral_unlocked = false
             then REFERRAL_BONUS else 0)
          + (if commissionOf points > 0 then commissionOf points else 0)
        total_earned := rU.total_earned
          + (if u.lifetime_earnings + points ≥ REFERRAL_THRESHOLD ∧ u.referral_unlocked = false
             then REFERRAL_BONUS else 0)
          + (if commissionOf points > 0 then commissionOf points else 0) } ∧
    (creditAndReferral now uid txid points db).transactions =
      (if commissionOf points > 0
       then [⟨"ref_comm_" ++ rid ++ "_" ++ toString now, rid, commissionOf points,
               .credit, "referral_commission"⟩]
       else []) ++
      (if u.lifetime_earnings + points ≥ REFERRAL_THRESHOLD ∧ u.referral_unlocked = false
       then [⟨"ref_bonus_" ++ rid ++ "_" ++ toString now, rid, REFERRAL_BONUS,
               .credit, "referral_bonus"⟩]
       else []) ++
      (⟨txid, uid, points, .credit, "lootably"⟩ :: db.transactions) := by
  have hne' : ¬ (uid = rid) := fun hc => hne hc.symm
  have h2 : findUser (updateUser uid (fun v =>
      { v with
        balance := v.balance + points
        total_earned := v.total_earned + points
        lifetime_earnings := v.lifetime_earnings + points })
      (insertTx ⟨txid, uid, points, .credit, "lootably"⟩ db)) uid = some
      { u with
        balance := u.balance + points
        total_earned := u.total_earned + points
        lifetime_earnings := u.lifetime_earnings + points } := by
    rw [findUser_updateUser, if_pos rfl, findUser_insertTx, hu]
    rfl
  have h2r : findUser (updateUser uid (fun v =>
      { v with
        balance := v.balance + points
        total_earned := v.total_earned + points
        lifetime_earnings := v.lifetime_earnings + points })
      (insertTx ⟨txid, uid, points, .credit, "lootably"⟩ db)) rid = some rU := by
    rw [findUser_updateUser, if_neg hne, findUser_insertTx, hrU]
  unfold creditAndReferral
  dsimp only
  rw [h2]
  dsimp only
  rw [hr]
  dsimp only
  split_ifs with hcm hfd hfd2
  · refine ⟨?_, by rfl⟩
    rw [findUser_insertTx, findUser_updateUser, if_pos rfl, findUser_updateUser, if_neg hne,
      findUser_insertTx, findUser_updateUser, if_pos rfl, h2r]
    simp
  · refine ⟨?_, by rfl⟩
    rw [findUser_insertTx, findUser_updateUser, if_pos rfl, h2r]
    simp
  · refine ⟨?_, by rfl⟩
    rw [findUser_updateUser, if_neg hne, findUser_insertTx, findUser_updateUser, if_pos rfl, h2r]
    simp
  · refine ⟨?_, by rfl⟩
    rw [h2r]
    simp


/-- Sample configuration for concrete checks: secret set, empty IP
whitelist. -/
def sampleCfg : Config := ⟨"s3cret", []⟩

/-- A user with empty counters, created at time 0, no referrer. -/
def sampleUser : User :=
  { balance := 0, total_earned := 0, total_withdrawn := 0, lifetime_earnings := 0,
    referral_unlocked := false, referred_by_user_id := none,
    created_at := 0, first_withdrawal_at := none }

/-- A one-user database with an empty ledger. -/
def sampleDB : DB := ⟨[("u1", sampleUser)], [], []⟩

/-- A well-formed postback request for `u1` with `payout=2`. -/
def sampleReq : PostbackReq :=
  { user_id := some "u1", payout := some "2", payoutNum := some 2,
    transaction_id := some "tx1", secret := some "s3cret", clientIP := "1.2.3.4" }

/-- A referred user: lifetime earnings 450, referred by `r1`, unlock still
pending. -/
def refUserB : User :=
  { balance := 20, total_earned := 470, total_withdrawn := 0, lifetime_earnings := 450,
    referral_unlocked := false, referred_by_user_id := some "r1",
    created_at := 0, first_withdrawal_at := none }

/-- The referrer of `refUserB`. -/
def refUserA : User :=
  { balance := 100, total_earned := 100, total_withdrawn := 0, lifetime_earnings := 0,
    referral_unlocked := false, referred_by_user_id := none,
    created_at := 0, first_withdrawal_at := none }

/-- Database with referrer `r1` and referred user `u1`. -/
def refDB : DB := ⟨[("u1", refUserB), ("r1", refUserA)], [], []⟩

/-- A well-formed postback request for the referred user with
`payout=100`. -/
def refReq : PostbackReq :=
  { user_id := some "u1", payout := some "100", payoutNum := some 100,
    transaction_id := some "tx9", secret := some "s3cret", clientIP := "9.9.9.9" }

/-- Claim C1 counterexample: the valid postback `payout=2` for a user with
balance 0 is answered by the first registered (dispatched) route handler,
which credits `⌊parseFloat(payout)⌋ = 2` points — not
`⌊2 * 1000 * 0.6⌋ = 1200` as the claim asserts — so
`balance_after = 2 ≠ balance_before + ⌊payout * 1000 * 0.6⌋`. -/
theorem postback_sixty_split_counterexample :
    (postback sampleCfg 5 sampleReq sampleDB).1 = .credited 2 ∧
    (findUser (postback sampleCfg 5 sampleReq sampleDB).2 "u1").map (fun u => u.balance)
      = some 2 ∧
    ¬ ((2 : Int) = 0 + ⌊(2 : ℚ) * (POINTS_PER_DOLLAR : Int) * USER_SPLIT⌋) := by
  have hfl : (⌊(2 : ℚ)⌋ : Int) = 2 := by norm_num
  have heval := postback_eq_of_valid sampleCfg 5 sampleReq sampleDB 2
    (by decide) (by decide) (by decide) (by decide) (by decide) (Or.inl rfl) rfl
    (by norm_num) (by decide) (by decide)
  rw [hfl] at heval
  refine ⟨by rw [heval], by rw [heval]; decide, ?_⟩
  norm_num [POINTS_PER_DOLLAR, USER_SPLIT]

/-- Claim C1 (amended): for every valid postback the dispatched (first
registered) route handler credits `⌊parseFloat(payout)⌋` points: the
response reports that amount and the credited user's balance increases by
exactly that amount (stated for a user who is not their own referrer);
the `⌊payout * 1000 * 0.6⌋` formula exists only in the second, shadowed
route handler, and no platform remainder is credited to any user ledger
by the dispatched handler. -/
theorem postback_credits_floor_payout (cfg : Config) (now : Int) (req : PostbackReq)
    (db : DB) (q : ℚ) (u : User)
    (h1 : truthy req.user_id = true) (h2 : truthy req.payout = true)
    (h3 : truthy req.transaction_id = true) (h4 : truthy req.secret = true)
    (h5 : req.secret.getD "" = cfg.lootablySecret)
    (h6 : cfg.ipWhitelist = [] ∨ req.clientIP ∈ cfg.ipWhitelist)
    (h7 : req.payoutNum = some q) (h8 : 0 < ⌊q⌋)
    (h10 : txExists db (req.transaction_id.getD "") = false)
    (hu : findUser db (req.user_id.getD "") = some u)
    (hself : ∀ rid, u.referred_by_user_id = some rid → rid ≠ req.user_id.getD "") :
    (postback cfg now req db).1 = .credited ⌊q⌋ ∧
    ∃ u2, findUser (postback cfg now req db).2 (req.user_id.getD "") = some u2 ∧
      u2.balance = u.balance + ⌊q⌋ := by
  have h9 : (findUser db (req.user_id.getD "")).isSome = true := by rw [hu]; rfl
  have heval := postback_eq_of_valid cfg now req db q h1 h2 h3 h4 h5 h6 h7 h8 h9 h10
  obtain ⟨u2, hfind, hbal, _⟩ := creditAndReferral_user now _ _ ⌊q⌋ db u hu hself
  refine ⟨by rw [heval], u2, ?_, hbal⟩
  rw [heval]
  exact hfind

/-- Witness for the amended C1: the sample postback with `payout=2`
credits exactly 2 points to `u1`. -/
theorem postback_credits_floor_payout_witness :
    (postback sampleCfg 5 sampleReq sampleDB).1 = .credited ⌊(2 : ℚ)⌋ ∧
    ∃ u2, findUser (postback sampleCfg 5 sampleReq sampleDB).2 ("u1") = some u2 ∧
      u2.balance = sampleUser.balance + ⌊(2 : ℚ)⌋ :=
  postback_credits_floor_payout sampleCfg 5 sampleReq sampleDB 2 sampleUser
    (by decide) (by decide) (by decide) (by decide) (by decide) (Or.inl rfl) rfl
    (by norm_num) (by decide) (by decide) (by decide)


/-- Claim C5: whenever a valid postback credits `P = ⌊payout⌋` points to a
user with a referrer, the referrer is additionally credited
`commissionOf P = ⌊P * 0.05⌋` points with source `referral_commission`
whenever that amount is positive, independent of the unlock state; on a
credit that also crosses the unlock threshold, both the 50-point
`referral_bonus` entry and the commission entry are written, and the
referrer's balance gains both amounts. -/
theorem referral_commission_every_credit (cfg : Config) (now : Int) (req : PostbackReq)
    (db : DB) (q : ℚ) (u rU : User) (rid : String)
    (h1 : truthy req.user_id = true) (h2 : truthy req.payout = true)
    (h3 : truthy req.transaction_id = true) (h4 : truthy req.secret = true)
    (h5 : req.secret.getD "" = cfg.lootablySecret)
    (h6 : cfg.ipWhitelist = [] ∨ req.clientIP ∈ cfg.ipWhitelist)
    (h7 : req.payoutNum = some q) (h8 : 0 < ⌊q⌋)
    (h10 : txExists db (req.transaction_id.getD "") = false)
    (hu : findUser db (req.user_id.getD "") = some u)
    (hr : u.referred_by_user_id = some rid)
    (hne : ¬ rid = req.user_id.getD "")
    (hrU : findUser db rid = some rU)
    (hc : commissionOf ⌊q⌋ > 0) :
    (postback cfg now req db).1 = .credited ⌊q⌋ ∧
    (⟨"ref_comm_" ++ rid ++ "_" ++ toString now, rid, commissionOf ⌊q⌋,
        .credit, "referral_commission"⟩ : TxEntry)
      ∈ (postback cfg now req db).2.transactions ∧
    (u.lifetime_earnings + ⌊q⌋ ≥ REFERRAL_THRESHOLD ∧ u.referral_unlocked = false →
      (⟨"ref_bonus_" ++ rid ++ "_" ++ toString now, rid, REFERRAL_BONUS,
          .credit, "referral_bonus"⟩ : TxEntry)
        ∈ (postback cfg now req db).2.transactions) ∧
    findUser (postback cfg now req db).2 rid = some
      { rU with
        balance := rU.balance
          + (if u.lifetime_earnings + ⌊q⌋ ≥ REFERRAL_THRESHOLD ∧ u.referral_unlocked = false
             then REFERRAL_BONUS else 0)
          + commissionOf ⌊q⌋
        total_earned := rU.total_earned
          + (if u.lifetime_earnings + ⌊q⌋ ≥ REFERRAL_THRESHOLD ∧ u.referral_unlocked = false
             then REFERRAL_BONUS else 0)
          + commissionOf ⌊q⌋ } := by
  have h9 : (findUser db (req.user_id.getD "")).isSome = true := by rw [hu]; rfl
  have heval := postback_eq_of_valid cfg now req db q h1 h2 h3 h4 h5 h6 h7 h8 h9 h10
  obtain ⟨hfind, htx⟩ :=
    creditAndReferral_referrer now (req.user_id.getD "") (req.transaction_id.getD "")
      ⌊q⌋ db u rU rid hu hr hne hrU
  refine ⟨by rw [heval], ?_, ?_, ?_⟩
  · show _ ∈ (postback cfg now req db).2.transactions
    rw [heval]
    show _ ∈ (creditAndReferral now _ _ _ db).transactions
    rw [htx]
    simp [hc]
  · intro hf
    show _ ∈ (postback cfg now req db).2.transactions
    rw [heval]
    show _ ∈ (creditAndReferral now _ _ _ db).transactions
    rw [htx]
    simp [hf]
  · rw [heval]
    show findUser (creditAndReferral now _ _ _ db) rid = _
    rw [hfind, if_pos hc]

/-- Witness for C5: `u1` (lifetime 450, referred by `r1`) completes a
`payout=100` offer: this crossing event writes both the 50-point unlock
bonus and the 5-point commission for `r1`. -/
theorem referral_commission_every_credit_witness :
    (postback sampleCfg 7 refReq refDB).1 = .credited ⌊(100 : ℚ)⌋ ∧
    (⟨"ref_comm_" ++ "r1" ++ "_" ++ toString (7 : Int), "r1", commissionOf ⌊(100 : ℚ)⌋,
        .credit, "referral_commission"⟩ : TxEntry)
      ∈ (postback sampleCfg 7 refReq refDB).2.transactions ∧
    (refUserB.lifetime_earnings + ⌊(100 : ℚ)⌋ ≥ REFERRAL_THRESHOLD ∧
        refUserB.referral_unlocked = false →
      (⟨"ref_bonus_" ++ "r1" ++ "_" ++ toString (7 : Int), "r1", REFERRAL_BONUS,
          .credit, "referral_bonus"⟩ : TxEntry)
        ∈ (postback sampleCfg 7 refReq refDB).2.transactions) ∧
    findUser (postback sampleCfg 7 refReq refDB).2 "r1" = some
      { refUserA with
        balance := refUserA.balance
          + (if refUserB.lifetime_earnings + ⌊(100 : ℚ)⌋ ≥ REFERRAL_THRESHOLD ∧
                refUserB.referral_unlocked = false
             then REFERRAL_BONUS else 0)
          + commissionOf ⌊(100 : ℚ)⌋
        total_earned := refUserA.total_earned
          + (if refUserB.lifetime_earnings + ⌊(100 : ℚ)⌋ ≥ REFERRAL_THRESHOLD ∧
                refUserB.referral_unlocked = false
             then REFERRAL_BONUS else 0)
          + commissionOf ⌊(100 : ℚ)⌋ } :=
  referral_commission_every_credit sampleCfg 7 refReq refDB 100 refUserB refUserA "r1"
    (by decide) (by decide) (by decide) (by decide) (by decide) (Or.inl rfl) rfl
    (by norm_num) (by decide) (by decide) (by decide) (by decide) (by decide)
    (by norm_num [commissionOf, REFERRAL_COMMISSION_RATE])

/-- Claim C10: the referral side-credits of a postback change only the
referrer's `balance` and `total_earned` — the referrer row after the
postback equals the old row with exactly those two fields increased, so
the referrer's own `lifetime_earnings` (the referral-unlock counter) and
unlock flag are untouched — while `lifetime_earnings` is incremented (by
the credited amount) only on the earning user. -/
theorem referral_credit_frame (cfg : Config) (now : Int) (req : PostbackReq)
    (db : DB) (q : ℚ) (u rU : User) (rid : String)
    (h1 : truthy req.user_id = true) (h2 : truthy req.payout = true)
    (h3 : truthy req.transaction_id = true) (h4 : truthy req.secret = true)
    (h5 : req.secret.getD "" = cfg.lootablySecret)
    (h6 : cfg.ipWhitelist = [] ∨ req.clientIP ∈ cfg.ipWhitelist)
    (h7 : req.payoutNum = some q) (h8 : 0 < ⌊q⌋)
    (h10 : txExists db (req.transaction_id.getD "") = false)
    (hu : findUser db (req.user_id.getD "") = some u)
    (hr : u.referred_by_user_id = some rid)
    (hne : ¬ rid = req.user_id.getD "")
    (hrU : findUser db rid = some rU) :
    findUser (postback cfg now req db).2 rid = some
      { rU with
        balance := rU.balance
          + (if u.lifetime_earnings + ⌊q⌋ ≥ REFERRAL_THRESHOLD ∧ u.referral_unlocked = false
             then REFERRAL_BONUS else 0)
          + (if commissionOf ⌊q⌋ > 0 then commissionOf ⌊q⌋ else 0)
        total_earned := rU.total_earned
          + (if u.lifetime_earnings + ⌊q⌋ ≥ REFERRAL_THRESHOLD ∧ u.referral_unlocked = false
             then REFERRAL_BONUS else 0)
          + (if commissionOf ⌊q⌋ > 0 then commissionOf ⌊q⌋ else 0) } ∧
    ∃ u2, findUser (postback cfg now req db).2 (req.user_id.getD "") = some u2 ∧
      u2.lifetime_earnings = u.lifetime_earnings + ⌊q⌋ ∧
      u2.balance = u.balance + ⌊q⌋ := by
  have h9 : (findUser db (req.user_id.getD "")).isSome = true := by rw [hu]; rfl
  have heval := postback_eq_of_valid cfg now req db q h1 h2 h3 h4 h5 h6 h7 h8 h9 h10
  have hself : ∀ rid2, u.referred_by_user_id = some rid2 → rid2 ≠ req.user_id.getD "" := by
    intro rid2 hrid2
    rw [hr] at hrid2
    injection hrid2 with h
    rw [← h]
    exact hne
  obtain ⟨hfind, _⟩ :=
    creditAndReferral_referrer now (req.user_id.getD "") (req.transaction_id.getD "")
      ⌊q⌋ db u rU rid hu hr hne hrU
  obtain ⟨u2, hfind2, hbal2, _, hle, _⟩ := creditAndReferral_user now _ _ ⌊q⌋ db u hu hself
  refine ⟨?_, u2, ?_, hle, hbal2⟩
  · rw [heval]
    exact hfind
  · rw [heval]
    exact hfind2


/-- A one-reward catalog: 100-point gift card, stock 5. -/
def giftCatalog : List Reward := [⟨"rw1", "Gift Card", 100, 5⟩]

/-- Claim C3: a withdrawal request for an existing, in-stock reward by an
existing user past the first-withdrawal cooldown whose balance is
strictly below the reward's catalog price fails with InsufficientBalance
and performs no mutation whatsoever: the database (balances,
total_withdrawn, first_withdrawal_at, ledger, withdrawal records) is
returned unchanged. -/
theorem withdraw_insufficient_balance (catalog : List Reward) (now : Int) (userId : String)
    (rewardId : Option String) (db : DB) (reward : Reward) (user : User)
    (hrid : truthy rewardId = true)
    (hr : getRewardById catalog (rewardId.getD "") = some reward)
    (hstock : ¬ reward.stock = 0)
    (hu : findUser db userId = some user)
    (hcool : user.first_withdrawal_at ≠ none ∨ SEVEN_DAYS_MS ≤ now - user.created_at)
    (hins : user.balance < reward.price) :
    withdraw catalog now userId rewardId db = (.insufficientBalance, db) := by
  cases hfw : user.first_withdrawal_at with
  | some t =>
    simp only [withdraw, hrid, hr, hu, hfw]
    simp [hstock, hins]
  | none =>
    have hage : ¬ (now - user.created_at < SEVEN_DAYS_MS) := by
      rcases hcool with hc | hc
      · exact absurd hfw hc
      · omega
    simp only [withdraw, hrid, hr, hu, hfw]
    simp [hstock, hins, hage]

/-- Witness for C3: `u1` (balance 0, account 7 days old) requests the
100-point gift card and is refused with no mutation. -/
theorem withdraw_insufficient_balance_witness :
    withdraw giftCatalog 604800000 "u1" (some "rw1") sampleDB
      = (.insufficientBalance, sampleDB) :=
  withdraw_insufficient_balance giftCatalog 604800000 "u1" (some "rw1") sampleDB
    ⟨"rw1", "Gift Card", 100, 5⟩ sampleUser
    (by decide) (by decide) (by decide) (by decide)
    (Or.inr (by decide)) (by decide)

/-- Claim C6: for a first withdrawal (no prior completed withdrawal)
strictly inside the 7-day window the request fails with CooldownActive
carrying `⌈remaining / day⌉` whole days, with no mutation and regardless
of the balance; once `first_withdrawal_at` is set or the account is at
least 7 days old, the cooldown check never fires. -/
theorem withdraw_cooldown_rule (catalog : List Reward) (now : Int) (userId : String)
    (rewardId : Option String) (db : DB) (reward : Reward) (user : User)
    (hrid : truthy rewardId = true)
    (hr : getRewardById catalog (rewardId.getD "") = some reward)
    (hstock : ¬ reward.stock = 0)
    (hu : findUser db userId = some user) :
    (user.first_withdrawal_at = none → now - user.created_at < SEVEN_DAYS_MS →
      withdraw catalog now userId rewardId db =
        (.cooldownActive
          ⌈((SEVEN_DAYS_MS - (now - user.created_at) : Int) : ℚ) / (24 * 60 * 60 * 1000)⌉,
         db)) ∧
    ((user.first_withdrawal_at ≠ none ∨ SEVEN_DAYS_MS ≤ now - user.created_at) →
      ∀ d, (withdraw catalog now userId rewardId db).1 ≠ .cooldownActive d) := by
  constructor
  · intro hfw hage
    simp only [withdraw, hrid, hr, hu, hfw]
    simp [hstock, hage]
  · intro hcool d
    cases hfw : user.first_withdrawal_at with
    | some t =>
      simp only [withdraw, hrid, hr, hu, hfw]
      by_cases hb : user.balance < reward.price <;> simp [hstock, hb]
    | none =>
      have hage : ¬ (now - user.created_at < SEVEN_DAYS_MS) := by
        rcases hcool with hc | hc
        · exact absurd hfw hc
        · omega
      simp only [withdraw, hrid, hr, hu, hfw]
      by_cases hb : user.balance < reward.price <;> simp [hstock, hage, hb]

/-- Witness for C6: `u1` (created at 0) tries to withdraw at t=100ms and the
request is refused with 7 whole days remaining. -/
theorem withdraw_cooldown_rule_witness :
    withdraw giftCatalog 100 "u1" (some "rw1") sampleDB = (.cooldownActive 7, sampleDB) := by
  have h := (withdraw_cooldown_rule giftCatalog 100 "u1" (some "rw1") sampleDB
    ⟨"rw1", "Gift Card", 100, 5⟩ sampleUser
    (by decide) (by decide) (by decide) (by decide)).1 (by decide) (by decide)
  rw [h]
  have hc : (⌈((SEVEN_DAYS_MS - (100 - sampleUser.created_at) : Int) : ℚ)
      / (24 * 60 * 60 * 1000)⌉ : Int) = 7 := by
    rw [show sampleUser.created_at = 0 from rfl]
    rw [show ((SEVEN_DAYS_MS - (100 - 0) : Int) : ℚ) = ((604799900 : Int) : ℚ) by
      norm_num [SEVEN_DAYS_MS]]
    rw [Int.ceil_eq_iff]
    norm_num
  rw [hc]


/-- Check 2 of the handler: all four required query parameters are
present (truthy). -/
def fieldsPresent (req : PostbackReq) : Prop :=
  truthy req.user_id = true ∧ truthy req.payout = true ∧
  truthy req.transaction_id = true ∧ truthy req.secret = true

/-- The shared secret matches the configured `LOOTABLY_SECRET`. -/
def secretOk (cfg : Config) (req : PostbackReq) : Prop :=
  req.secret.getD "" = cfg.lootablySecret

/-- The IP whitelist is unconfigured or contains the caller's address. -/
def ipAllowed (cfg : Config) (req : PostbackReq) : Prop :=
  cfg.ipWhitelist = [] ∨ req.clientIP ∈ cfg.ipWhitelist

/-- The payout parses and its floor is a positive number of points. -/
def payoutPositive (req : PostbackReq) : Prop :=
  ∃ q, req.payoutNum = some q ∧ 0 < ⌊q⌋

/-- The referenced user exists. -/
def userKnown (db : DB) (req : PostbackReq) : Prop :=
  (findUser db (req.user_id.getD "")).isSome = true

/-- The transaction id has already been claimed. -/
def isDuplicate (db : DB) (req : PostbackReq) : Prop :=
  txExists db (req.transaction_id.getD "") = true

instance (req : PostbackReq) : Decidable (fieldsPresent req) := by
  unfold fieldsPresent
  infer_instance

instance (cfg : Config) (req : PostbackReq) : Decidable (secretOk cfg req) := by
  unfold secretOk
  infer_instance

instance (cfg : Config) (req : PostbackReq) : Decidable (ipAllowed cfg req) := by
  unfold ipAllowed
  infer_instance

instance (db : DB) (req : PostbackReq) : Decidable (userKnown db req) := by
  unfold userKnown
  infer_instance

instance (db : DB) (req : PostbackReq) : Decidable (isDuplicate db req) := by
  unfold isDuplicate
  infer_instance

theorem postback_missing (cfg : Config) (now : Int) (req : PostbackReq) (db : DB)
    (hf : ¬ fieldsPresent req) :
    postback cfg now req db = (.missingParams, db) := by
  have hb : ¬ ((truthy req.user_id && truthy req.payout &&
      truthy req.transaction_id && truthy req.secret) = true) := by
    intro hc
    simp only [Bool.and_eq_true] at hc
    exact hf ⟨hc.1.1.1, hc.1.1.2, hc.1.2, hc.2⟩
  simp only [postback, if_pos hb]

theorem postback_badsecret (cfg : Config) (now : Int) (req : PostbackReq) (db : DB)
    (hf : fieldsPresent req) (hs : ¬ secretOk cfg req) :
    postback cfg now req db = (.invalidSecret, db) := by
  obtain ⟨h1, h2, h3, h4⟩ := hf
  unfold secretOk at hs
  simp only [postback, h1, h2, h3, h4]
  simp [hs]

theorem postback_ipblocked (cfg : Config) (now : Int) (req : PostbackReq) (db : DB)
    (hf : fieldsPresent req) (hs : secretOk cfg req) (hip : ¬ ipAllowed cfg req) :
    postback cfg now req db = (.ipNotAllowed, db) := by
  obtain ⟨h1, h2, h3, h4⟩ := hf
  unfold secretOk at hs
  unfold ipAllowed at hip
  push_neg at hip
  simp only [postback, h1, h2, h3, h4]
  simp [hs, hip.1, hip.2]

theorem postback_badpayout (cfg : Config) (now : Int) (req : PostbackReq) (db : DB)
    (hf : fieldsPresent req) (hs : secretOk cfg req) (hip : ipAllowed cfg req)
    (hp : ¬ payoutPositive req) :
    postback cfg now req db = (.invalidPayout, db) := by
  obtain ⟨h1, h2, h3, h4⟩ := hf
  unfold secretOk at hs
  cases hq : req.payoutNum with
  | none =>
    simp only [postback, h1, h2, h3, h4]
    simp [hs, not_ip_blocked cfg req hip, hq]
  | some q =>
    have hnp : ⌊q⌋ ≤ 0 := by
      by_contra hpos
      exact hp ⟨q, hq, by omega⟩
    simp only [postback, h1, h2, h3, h4]
    simp [hs, not_ip_blocked cfg req hip, hq, hnp]

theorem postback_nouser (cfg : Config) (now : Int) (req : PostbackReq) (db : DB)
    (hf : fieldsPresent req) (hs : secretOk cfg req) (hip : ipAllowed cfg req)
    (hp : payoutPositive req) (hu : ¬ userKnown db req) :
    postback cfg now req db = (.userNotFound, db) := by
  obtain ⟨h1, h2, h3, h4⟩ := hf
  obtain ⟨q, hq, hpos⟩ := hp
  have hnone : findUser db (req.user_id.getD "") = none := by
    unfold userKnown at hu
    cases hfind : findUser db (req.user_id.getD "") with
    | none => rfl
    | some u => rw [hfind] at hu; simp at hu
  unfold secretOk at hs
  simp only [postback, h1, h2, h3, h4]
  simp [hs, not_ip_blocked cfg req hip, hq, hnone, not_le.mpr hpos]


/-- Request with the payout parameter absent AND a wrong secret. -/
def badReq : PostbackReq :=
  { user_id := some "u1", payout := none, payoutNum := none,
    transaction_id := some "tx1", secret := some "wrong", clientIP := "1.2.3.4" }

/-- Claim C7 counterexample: for a request with the payout parameter
missing and the shared secret wrong, the dispatched handler reports the
missing parameter (an InvalidRequest outcome), not the Unauthorized
secret mismatch that the claimed order (secret checked first)
predicts. -/
theorem postback_validation_order_counterexample :
    (postback sampleCfg 5 badReq sampleDB).1 = .missingParams ∧
    PostbackRes.missingParams ≠ PostbackRes.invalidSecret := by
  exact ⟨by decide, by decide⟩

/-- Claim C7 (amended): the dispatched handler checks, in order:
missing required fields → InvalidRequest, secret mismatch →
Unauthorized, IP allow-list → Unauthorized, non-positive/NaN floored
payout → InvalidRequest, unknown user → NotFound, duplicate transaction
id → short-circuit success; for every request the first failing check in
THIS order determines the reported outcome. -/
theorem postback_validation_order (cfg : Config) (now : Int) (req : PostbackReq) (db : DB) :
    ((postback cfg now req db).1 = .missingParams ↔ ¬ fieldsPresent req) ∧
    ((postback cfg now req db).1 = .invalidSecret ↔ fieldsPresent req ∧ ¬ secretOk cfg req) ∧
    ((postback cfg now req db).1 = .ipNotAllowed ↔
      fieldsPresent req ∧ secretOk cfg req ∧ ¬ ipAllowed cfg req) ∧
    ((postback cfg now req db).1 = .invalidPayout ↔
      fieldsPresent req ∧ secretOk cfg req ∧ ipAllowed cfg req ∧ ¬ payoutPositive req) ∧
    ((postback cfg now req db).1 = .userNotFound ↔
      fieldsPresent req ∧ secretOk cfg req ∧ ipAllowed cfg req ∧ payoutPositive req ∧
        ¬ userKnown db req) ∧
    ((postback cfg now req db).1 = .alreadyProcessed ↔
      fieldsPresent req ∧ secretOk cfg req ∧ ipAllowed cfg req ∧ payoutPositive req ∧
        userKnown db req ∧ isDuplicate db req) ∧
    ((∃ p, (postback cfg now req db).1 = .credited p) ↔
      fieldsPresent req ∧ secretOk cfg req ∧ ipAllowed cfg req ∧ payoutPositive req ∧
        userKnown db req ∧ ¬ isDuplicate db req) := by
  by_cases hf : fieldsPresent req
  · by_cases hs : secretOk cfg req
    · by_cases hip : ipAllowed cfg req
      · by_cases hp : payoutPositive req
        · have hp2 := hp
          obtain ⟨q, hq, hpos⟩ := hp
          by_cases hu : userKnown db req
          · by_cases hd : isDuplicate db req
            · rw [show (postback cfg now req db).1 = .alreadyProcessed by
                rw [postback_already_of_valid cfg now req db q hf.1 hf.2.1 hf.2.2.1 hf.2.2.2
                  hs hip hq hpos hu hd]]
              simp [hf, hs, hip, hu, hd, hp2]
            · have hd2 : txExists db (req.transaction_id.getD "") = false := by
                unfold isDuplicate at hd
                simpa using hd
              rw [show (postback cfg now req db).1 = .credited ⌊q⌋ by
                rw [postback_eq_of_valid cfg now req db q hf.1 hf.2.1 hf.2.2.1 hf.2.2.2
                  hs hip hq hpos hu hd2]]
              simp [hf, hs, hip, hu, hd, hp2]
          · rw [postback_nouser cfg now req db hf hs hip hp2 hu]
            simp [hf, hs, hip, hu, hp2]
        · rw [postback_badpayout cfg now req db hf hs hip hp]
          simp [hf, hs, hip, hp]
      · rw [postback_ipblocked cfg now req db hf hs hip]
        simp [hf, hs, hip]
    · rw [postback_badsecret cfg now req db hf hs]
      simp [hf, hs]
  · rw [postback_missing cfg now req db hf]
    simp [hf]

/-- Request whose payout parses to the strictly positive value 1/2. -/
def halfReq : PostbackReq :=
  { user_id := some "u1", payout := some "0.5", payoutNum := some (1/2),
    transaction_id := some "tx1", secret := some "s3cret", clientIP := "1.2.3.4" }

/-- Claim C8 counterexample: payout "0.5" parses to the strictly positive
number 1/2, yet the otherwise-valid postback is rejected as an invalid
payout (InvalidRequest), because the handler floors the parsed value
before the positivity check and ⌊1/2⌋ = 0. -/
theorem postback_positive_payout_counterexample :
    (0 : ℚ) < 1/2 ∧
    (postback sampleCfg 5 halfReq sampleDB).1 = .invalidPayout := by
  constructor
  · norm_num
  · have hfl : (⌊(1/2 : ℚ)⌋ : Int) = 0 := by norm_num
    have hp : ¬ payoutPositive halfReq := by
      rintro ⟨q, hq, hpos⟩
      have : q = 1/2 := by
        have : some q = some (1/2 : ℚ) := hq.symm.trans rfl
        injection this
      rw [this, hfl] at hpos
      exact absurd hpos (by norm_num)
    rw [postback_badpayout sampleCfg 5 halfReq sampleDB (by decide) (by decide)
      (Or.inl rfl) hp]

/-- Claim C8 (amended): with the required fields present, the secret
correct and the IP allowed, the postback is rejected as an invalid
payout exactly when parseFloat yields NaN or the floored payout is not
positive — so strictly positive payouts below one unit (such as 0.5)
are rejected, and the check passes exactly when ⌊payout⌋ ≥ 1. -/
theorem postback_invalid_payout_iff (cfg : Config) (now : Int) (req : PostbackReq) (db : DB)
    (hf : fieldsPresent req) (hs : secretOk cfg req) (hip : ipAllowed cfg req) :
    (postback cfg now req db).1 = .invalidPayout ↔
      req.payoutNum = none ∨ ∃ q, req.payoutNum = some q ∧ ⌊q⌋ ≤ 0 := by
  constructor
  · intro h
    by_cases hp : payoutPositive req
    · exfalso
      obtain ⟨q, hq, hpos⟩ := hp
      by_cases hu : userKnown db req
      · by_cases hd : isDuplicate db req
        · rw [postback_already_of_valid cfg now req db q hf.1 hf.2.1 hf.2.2.1 hf.2.2.2
            hs hip hq hpos hu hd] at h
          simp at h
        · have hd2 : txExists db (req.transaction_id.getD "") = false := by
            unfold isDuplicate at hd
            simpa using hd
          rw [postback_eq_of_valid cfg now req db q hf.1 hf.2.1 hf.2.2.1 hf.2.2.2
            hs hip hq hpos hu hd2] at h
          simp at h
      · rw [postback_nouser cfg now req db hf hs hip ⟨q, hq, hpos⟩ hu] at h
        simp at h
    · cases hq : req.payoutNum with
      | none => exact Or.inl rfl
      | some q =>
        right
        refine ⟨q, rfl, ?_⟩
        by_contra hpos
        exact hp ⟨q, hq, by omega⟩
  · intro h
    have hp : ¬ payoutPositive req := by
      rcases h with h | ⟨q, hq, hle⟩
      · rintro ⟨q2, hq2, _⟩
        rw [h] at hq2
        cases hq2
      · rintro ⟨q2, hq2, hpos⟩
        rw [hq] at hq2
        injection hq2 with he
        rw [← he] at hpos
        omega
    rw [postback_badpayout cfg now req db hf hs hip hp]

/-- Witness for the amended C8: the request with payout 0.5 satisfies the
characterization (it is rejected because ⌊1/2⌋ = 0 ≤ 0). -/
theorem postback_invalid_payout_iff_witness :
    (postback sampleCfg 5 halfReq sampleDB).1 = .invalidPayout ↔
      halfReq.payoutNum = none ∨ ∃ q, halfReq.payoutNum = some q ∧ ⌊q⌋ ≤ 0 :=
  postback_invalid_payout_iff sampleCfg 5 halfReq sampleDB
    (by decide) (by decide) (Or.inl rfl)


theorem unlockedFlag_insertTx (e : TxEntry) (X : DB) (uid : String) :
    unlockedFlag (insertTx e X) uid = unlockedFlag X uid := rfl

theorem unlockedFlag_updateUser_frame (w : String) (g : User → User) (X : DB) (uid : String)
    (hg : ∀ v, (g v).referral_unlocked = v.referral_unlocked) :
    unlockedFlag (updateUser w g X) uid = unlockedFlag X uid := by
  unfold unlockedFlag
  rw [findUser_updateUser]
  by_cases h : uid = w
  · rw [if_pos h]
    cases findUser X uid <;> simp [hg]
  · rw [if_neg h]

theorem unlockedFlag_set_true (X : DB) (uid : String)
    (hex : (findUser X uid).isSome = true) :
    unlockedFlag (updateUser uid (fun u => { u with referral_unlocked := true }) X) uid
      = true := by
  unfold unlockedFlag
  rw [findUser_updateUser, if_pos rfl]
  obtain ⟨u, hu⟩ := Option.isSome_iff_exists.mp hex
  rw [hu]
  rfl

theorem creditAndReferral_unlock_step (now : Int) (uid txid : String) (points : Int) (db : DB) :
    (unlockedFlag db uid = true →
      unlockedFlag (creditAndReferral now uid txid points db) uid = true ∧
      bonusCount (creditAndReferral now uid txid points db) = bonusCount db) ∧
    bonusCount (creditAndReferral now uid txid points db)
      ≤ bonusCount db + (if unlockedFlag db uid = true then 0 else 1) ∧
    (bonusCount db < bonusCount (creditAndReferral now uid txid points db) →
      unlockedFlag db uid = false ∧
      unlockedFlag (creditAndReferral now uid txid points db) uid = true ∧
      ∃ u, findUser db uid = some u ∧ u.referral_unlocked = false ∧
        REFERRAL_THRESHOLD ≤ u.lifetime_earnings + points) := by
  have hdb2 : findUser (updateUser uid (fun v =>
      { v with
        balance := v.balance + points
        total_earned := v.total_earned + points
        lifetime_earnings := v.lifetime_earnings + points })
      (insertTx ⟨txid, uid, points, .credit, "lootably"⟩ db)) uid
      = (findUser db uid).map (fun v =>
      { v with
        balance := v.balance + points
        total_earned := v.total_earned + points
        lifetime_earnings := v.lifetime_earnings + points }) := by
    rw [findUser_updateUser, if_pos rfl, findUser_insertTx]
  unfold creditAndReferral
  dsimp only
  split
  case _ hnone =>
    have h0 : findUser db uid = none := by
      rw [hdb2] at hnone
      cases hf : findUser db uid
      · rfl
      · rw [hf] at hnone
        cases hnone
    have hfl : unlockedFlag db uid = false := by
      unfold unlockedFlag
      rw [h0]
    have hfl2 : unlockedFlag (updateUser uid (fun v =>
        { v with
          balance := v.balance + points
          total_earned := v.total_earned + points
          lifetime_earnings := v.lifetime_earnings + points })
        (insertTx ⟨txid, uid, points, .credit, "lootably"⟩ db)) uid = false := by
      unfold unlockedFlag
      rw [hnone]
    have hbc : bonusCount (updateUser uid (fun v =>
        { v with
          balance := v.balance + points
          total_earned := v.total_earned + points
          lifetime_earnings := v.lifetime_earnings + points })
        (insertTx ⟨txid, uid, points, .credit, "lootably"⟩ db)) = bonusCount db := by
      rw [bonusCount_updateUser, bonusCount_insertTx]
      simp
    refine ⟨?_, ?_, ?_⟩
    · intro h
      rw [hfl] at h
      cases h
    · rw [hbc, hfl]
      simp
    · intro hlt
      rw [hbc] at hlt
      omega
  case _ u2 hsome =>
    obtain ⟨u, hu, hg⟩ : ∃ u, findUser db uid = some u ∧ (fun v =>
        { v with
          balance := v.balance + points
          total_earned := v.total_earned + points
          lifetime_earnings := v.lifetime_earnings + points } : User → User) u = u2 := by
      rw [hdb2] at hsome
      cases hf : findUser db uid
      · rw [hf] at hsome
        cases hsome
      · rw [hf] at hsome
        injection hsome with h
        exact ⟨_, rfl, h⟩
    have hfldb : unlockedFlag db uid = u.referral_unlocked := by
      unfold unlockedFlag
      rw [hu]
    have hflu2 : u2.referral_unlocked = u.referral_unlocked := by
      rw [← hg]
    have hlife : u2.lifetime_earnings = u.lifetime_earnings + points := by
      rw [← hg]
    have hfl2 : unlockedFlag (updateUser uid (fun v =>
        { v with
          balance := v.balance + points
          total_earned := v.total_earned + points
          lifetime_earnings := v.lifetime_earnings + points })
        (insertTx ⟨txid, uid, points, .credit, "lootably"⟩ db)) uid
        = u.referral_unlocked := by
      unfold unlockedFlag
      rw [hsome]
      exact hflu2
    have hbc : bonusCount (updateUser uid (fun v =>
        { v with
          balance := v.balance + points
          total_earned := v.total_earned + points
          lifetime_earnings := v.lifetime_earnings + points })
        (insertTx ⟨txid, uid, points, .credit, "lootably"⟩ db)) = bonusCount db := by
      rw [bonusCount_updateUser, bonusCount_insertTx]
      simp
    split
    · refine ⟨fun h => ⟨by rw [hfl2, ← hfldb, h], hbc⟩, ?_, ?_⟩
      · rw [hbc]
        omega
      · intro hlt
        rw [hbc] at hlt
        omega
    case _ rid hrid =>
      by_cases hfd : (u2.lifetime_earnings ≥ REFERRAL_THRESHOLD ∧ u2.referral_unlocked = false)
      · rw [if_pos hfd]
        have hfldb0 : unlockedFlag db uid = false := by
          rw [hfldb, ← hflu2, hfd.2]
        have hex : (findUser (insertTx ⟨"ref_bonus_" ++ rid ++ "_" ++ toString now,
            rid, REFERRAL_BONUS, .credit, "referral_bonus"⟩
            (updateUser rid (fun r =>
              { r with
                balance := r.balance + REFERRAL_BONUS
                total_earned := r.total_earned + REFERRAL_BONUS })
              (updateUser uid (fun v =>
                { v with
                  balance := v.balance + points
                  total_earned := v.total_earned + points
                  lifetime_earnings := v.lifetime_earnings + points })
                (insertTx ⟨txid, uid, points, .credit, "lootably"⟩ db)))) uid).isSome
            = true := by
          rw [findUser_isSome_iff]
          simp only [users_insertTx, keys_updateUser]
          exact (findUser_isSome_iff db uid).mp (by rw [hu]; rfl)
        have hflA : unlockedFlag (updateUser uid
            (fun v => { v with referral_unlocked := true })
            (insertTx ⟨"ref_bonus_" ++ rid ++ "_" ++ toString now,
              rid, REFERRAL_BONUS, .credit, "referral_bonus"⟩
              (updateUser rid (fun r =>
                { r with
                  balance := r.balance + REFERRAL_BONUS
                  total_earned := r.total_earned + REFERRAL_BONUS })
                (updateUser uid (fun v =>
                  { v with
                    balance := v.balance + points
                    total_earned := v.total_earned + points
                    lifetime_earnings := v.lifetime_earnings + points })
                  (insertTx ⟨txid, uid, points, .credit, "lootably"⟩ db))))) uid = true :=
          unlockedFlag_set_true _ uid hex
        have hbcA : bonusCount (updateUser uid
            (fun v => { v with referral_unlocked := true })
            (insertTx ⟨"ref_bonus_" ++ rid ++ "_" ++ toString now,
              rid, REFERRAL_BONUS, .credit, "referral_bonus"⟩
              (updateUser rid (fun r =>
                { r with
                  balance := r.balance + REFERRAL_BONUS
                  total_earned := r.total_earned + REFERRAL_BONUS })
                (updateUser uid (fun v =>
                  { v with
                    balance := v.balance + points
                    total_earned := v.total_earned + points
                    lifetime_earnings := v.lifetime_earnings + points })
                  (insertTx ⟨txid, uid, points, .credit, "lootably"⟩ db)))))
            = bonusCount db + 1 := by
          simp only [bonusCount_updateUser, bonusCount_insertTx]
          simp
          omega
        by_cases hcm : commissionOf points > 0
        · rw [if_pos hcm]
          refine ⟨?_, ?_, ?_⟩
          · intro h
            rw [hfldb0] at h
            cases h
          · rw [bonusCount_insertTx, bonusCount_updateUser, hbcA, hfldb0]
            simp
          · intro hlt
            refine ⟨hfldb0, ?_, u, hu, hflu2.symm.trans hfd.2, ?_⟩
            · rw [unlockedFlag_insertTx, unlockedFlag_updateUser_frame rid
                (fun r => { r with
                  balance := r.balance + commissionOf points
                  total_earned := r.total_earned + commissionOf points }) _ uid
                (fun v => rfl)]
              exact hflA
            · rw [← hlife]
              exact hfd.1
        · rw [if_neg hcm]
          refine ⟨?_, ?_, ?_⟩
          · intro h
            rw [hfldb0] at h
            cases h
          · rw [hbcA, hfldb0]
            simp
          · intro hlt
            exact ⟨hfldb0, hflA, u, hu, hflu2.symm.trans hfd.2, by rw [← hlife]; exact hfd.1⟩
      · rw [if_neg hfd]
        by_cases hcm : commissionOf points > 0
        · rw [if_pos hcm]
          have hflC : unlockedFlag (insertTx ⟨"ref_comm_" ++ rid ++ "_" ++ toString now,
              rid, commissionOf points, .credit, "referral_commission"⟩
              (updateUser rid (fun r =>
                { r with
                  balance := r.balance + commissionOf points
                  total_earned := r.total_earned + commissionOf points })
                (updateUser uid (fun v =>
                  { v with
                    balance := v.balance + points
                    total_earned := v.total_earned + points
                    lifetime_earnings := v.lifetime_earnings + points })
                  (insertTx ⟨txid, uid, points, .credit, "lootably"⟩ db)))) uid
              = u.referral_unlocked := by
            rw [unlockedFlag_insertTx, unlockedFlag_updateUser_frame rid
              (fun r => { r with
                balance := r.balance + commissionOf points
                total_earned := r.total_earned + commissionOf points }) _ uid
              (fun v => rfl)]
            exact hfl2
          have hbcC : bonusCount (insertTx ⟨"ref_comm_" ++ rid ++ "_" ++ toString now,
              rid, commissionOf points, .credit, "referral_commission"⟩
              (updateUser rid (fun r =>
                { r with
                  balance := r.balance + commissionOf points
                  total_earned := r.total_earned + commissionOf points })
                (updateUser uid (fun v =>
                  { v with
                    balance := v.balance + points
                    total_earned := v.total_earned + points
                    lifetime_earnings := v.lifetime_earnings + points })
                  (insertTx ⟨txid, uid, points, .credit, "lootably"⟩ db))))
              = bonusCount db := by
            simp only [bonusCount_updateUser, bonusCount_insertTx]
            simp
          refine ⟨fun h => ⟨by rw [hflC, ← hfldb, h], hbcC⟩, ?_, ?_⟩
          · rw [hbcC]
            omega
          · intro hlt
            rw [hbcC] at hlt
            omega
        · rw [if_neg hcm]
          refine ⟨fun h => ⟨by rw [hfl2, ← hfldb, h], hbc⟩, ?_, ?_⟩
          · rw [hbc]
            omega
          · intro hlt
            rw [hbc] at hlt
            omega


theorem postback_unlock_step (cfg : Config) (now : Int) (req : PostbackReq) (db : DB)
    (u : String) (hreq : req.user_id.getD "" = u) :
    (unlockedFlag db u = true →
      unlockedFlag (postback cfg now req db).2 u = true ∧
      bonusCount (postback cfg now req db).2 = bonusCount db) ∧
    bonusCount (postback cfg now req db).2
      ≤ bonusCount db + (if unlockedFlag db u = true then 0 else 1) ∧
    (bonusCount db < bonusCount (postback cfg now req db).2 →
      unlockedFlag db u = false ∧
      unlockedFlag (postback cfg now req db).2 u = true ∧
      ∃ v, findUser db u = some v ∧ v.referral_unlocked = false ∧
        ∃ q, req.payoutNum = some q ∧ 0 < ⌊q⌋ ∧
          REFERRAL_THRESHOLD ≤ v.lifetime_earnings + ⌊q⌋) := by
  rcases postback_snd_cases cfg now req db with h | ⟨q, hq, hpos, hdup, h⟩
  · rw [h]
    refine ⟨fun hh => ⟨hh, rfl⟩, by split <;> omega, fun hlt => absurd hlt (by omega)⟩
  · rw [h, hreq]
    have hstep := creditAndReferral_unlock_step now u (req.transaction_id.getD "") ⌊q⌋ db
    refine ⟨hstep.1, hstep.2.1, fun hlt => ?_⟩
    obtain ⟨hf0, hf1, v, hv, hvf, hth⟩ := hstep.2.2 hlt
    exact ⟨hf0, hf1, v, hv, hvf, q, hq, hpos, hth⟩

theorem postback_unlock_monovariant (cfg : Config) (now : Int) (req : PostbackReq)
    (db : DB) (u : String) (hreq : req.user_id.getD "" = u) :
    bonusCount (postback cfg now req db).2
        + (if unlockedFlag (postback cfg now req db).2 u = true then 0 else 1)
      ≤ bonusCount db + (if unlockedFlag db u = true then 0 else 1) := by
  have hstep := postback_unlock_step cfg now req db u hreq
  by_cases hf : unlockedFlag db u = true
  · obtain ⟨h1, h2⟩ := hstep.1 hf
    rw [hf, h1, h2]
  · rw [if_neg hf]
    by_cases hf1 : unlockedFlag (postback cfg now req db).2 u = true
    · rw [if_pos hf1]
      have h2 := hstep.2.1
      rw [if_neg hf] at h2
      omega
    · rw [if_neg hf1]
      have hle : ¬ (bonusCount db < bonusCount (postback cfg now req db).2) := by
        intro hlt
        exact hf1 (hstep.2.2 hlt).2.1
      omega

/-- Claim C4: over any sequence of postbacks credited to one referred
user, the referral unlock bonus is written at most once: the number of
`referral_bonus` ledger entries grows by at most one over the whole run;
once the unlock flag is true it stays true and no further bonus entry is
ever written; and a single postback pays the bonus only when the user's
lifetime earnings reach the 500-point threshold with that credit while
the flag is still false (setting the flag true). -/
theorem referral_unlock_at_most_once (cfg : Config) (u : String) (db : DB)
    (l : List (PostbackReq × Int))
    (hall : ∀ p ∈ l, p.1.user_id.getD "" = u) :
    (unlockedFlag db u = true →
      unlockedFlag (runPostbacks cfg db l) u = true ∧
      bonusCount (runPostbacks cfg db l) = bonusCount db) ∧
    bonusCount (runPostbacks cfg db l)
        + (if unlockedFlag (runPostbacks cfg db l) u = true then 0 else 1)
      ≤ bonusCount db + (if unlockedFlag db u = true then 0 else 1) ∧
    bonusCount (runPostbacks cfg db l) ≤ bonusCount db + 1 ∧
    (∀ now req, req.user_id.getD "" = u →
      bonusCount db < bonusCount (postback cfg now req db).2 →
      unlockedFlag db u = false ∧
      unlockedFlag (postback cfg now req db).2 u = true ∧
      ∃ v, findUser db u = some v ∧ v.referral_unlocked = false ∧
        ∃ q, req.payoutNum = some q ∧ 0 < ⌊q⌋ ∧
          REFERRAL_THRESHOLD ≤ v.lifetime_earnings + ⌊q⌋) := by
  induction l generalizing db with
  | nil =>
    have h0 : runPostbacks cfg db [] = db := rfl
    rw [h0]
    refine ⟨fun h => ⟨h, rfl⟩, le_refl _, by omega, ?_⟩
    intro now req hreq hlt
    exact (postback_unlock_step cfg now req db u hreq).2.2 hlt
  | cons x l ih =>
    have hx : x.1.user_id.getD "" = u := hall x (List.mem_cons_self x l)
    have hall2 : ∀ p ∈ l, p.1.user_id.getD "" = u :=
      fun p hp => hall p (List.mem_cons_of_mem x hp)
    have hrun : runPostbacks cfg db (x :: l)
        = runPostbacks cfg (postback cfg x.2 x.1 db).2 l := rfl
    rw [hrun]
    have ihh := ih (postback cfg x.2 x.1 db).2 hall2
    have hstep := postback_unlock_step cfg x.2 x.1 db u hx
    have hmono := postback_unlock_monovariant cfg x.2 x.1 db u hx
    have hchain := le_trans ihh.2.1 hmono
    refine ⟨?_, hchain, ?_, ?_⟩
    · intro h
      obtain ⟨h1, h2⟩ := hstep.1 h
      obtain ⟨h3, h4⟩ := ihh.1 h1
      exact ⟨h3, by rw [h4, h2]⟩
    · have ha : bonusCount (runPostbacks cfg (postback cfg x.2 x.1 db).2 l)
          ≤ bonusCount (runPostbacks cfg (postback cfg x.2 x.1 db).2 l)
            + (if unlockedFlag (runPostbacks cfg (postback cfg x.2 x.1 db).2 l) u = true
               then 0 else 1) := by
        split <;> omega
      have hb : bonusCount db + (if unlockedFlag db u = true then 0 else 1)
          ≤ bonusCount db + 1 := by
        split <;> omega
      exact le_trans ha (le_trans hchain hb)
    · intro now req hreq hlt
      exact (postback_unlock_step cfg now req db u hreq).2.2 hlt


/-- Witness for C2: the first postback credits ⌊2⌋ points; its exact
replay reports the already-processed marker and leaves the database
unchanged. -/
theorem postback_replay_idempotent_witness :
    (postback sampleCfg 5 sampleReq sampleDB).1 = .credited ⌊(2 : ℚ)⌋ ∧
    postback sampleCfg 6 sampleReq (postback sampleCfg 5 sampleReq sampleDB).2
      = (.alreadyProcessed, (postback sampleCfg 5 sampleReq sampleDB).2) := by
  have h := postback_replay_idempotent sampleCfg 5 sampleReq sampleDB 2
    (by decide) (by decide) (by decide) (by decide) (by decide) (Or.inl rfl) rfl
    (by norm_num) (by decide) (by decide)
  exact ⟨h.1, h.2.1 6⟩

/-- Witness for C4: one crossing postback for the referred user `u1`
adds at most one referral-bonus entry, and the single-step
characterization holds at `refDB`. -/
theorem referral_unlock_at_most_once_witness :
    (unlockedFlag refDB "u1" = true →
      unlockedFlag (runPostbacks sampleCfg refDB [(refReq, 7)]) "u1" = true ∧
      bonusCount (runPostbacks sampleCfg refDB [(refReq, 7)]) = bonusCount refDB) ∧
    bonusCount (runPostbacks sampleCfg refDB [(refReq, 7)])
        + (if unlockedFlag (runPostbacks sampleCfg refDB [(refReq, 7)]) "u1" = true
           then 0 else 1)
      ≤ bonusCount refDB + (if unlockedFlag refDB "u1" = true then 0 else 1) ∧
    bonusCount (runPostbacks sampleCfg refDB [(refReq, 7)]) ≤ bonusCount refDB + 1 ∧
    (∀ now req, req.user_id.getD "" = "u1" →
      bonusCount refDB < bonusCount (postback sampleCfg now req refDB).2 →
      unlockedFlag refDB "u1" = false ∧
      unlockedFlag (postback sampleCfg now req refDB).2 "u1" = true ∧
      ∃ v, findUser refDB "u1" = some v ∧ v.referral_unlocked = false ∧
        ∃ q, req.payoutNum = some q ∧ 0 < ⌊q⌋ ∧
          REFERRAL_THRESHOLD ≤ v.lifetime_earnings + ⌊q⌋) :=
  referral_unlock_at_most_once sampleCfg "u1" refDB [(refReq, 7)] (by decide)

/-- Witness for C9: a withdrawal attempt against the sample database
preserves the balance-equals-ledger-sum invariant, which also holds of
the empty database. -/
theorem balance_matches_ledger_invariant_witness :
    balancesOk (applyOp sampleCfg giftCatalog sampleDB (Op.opWithdraw "u1" (some "rw1") 0))
      ∧ balancesOk DB.empty :=
  balance_matches_ledger_invariant sampleCfg giftCatalog sampleDB
    (Op.opWithdraw "u1" (some "rw1") 0)
    (by unfold balancesOk; decide) (by unfold opOk keysNodup; decide)

/-- Witness for C10: on the crossing postback for `u1`, the referrer row
of `r1` changes only in balance and total_earned, and `u1` alone gains
lifetime earnings. -/
theorem referral_credit_frame_witness :
    findUser (postback sampleCfg 7 refReq refDB).2 "r1" = some
      { refUserA with
        balance := refUserA.balance
          + (if refUserB.lifetime_earnings + ⌊(100 : ℚ)⌋ ≥ REFERRAL_THRESHOLD ∧
                refUserB.referral_unlocked = false
             then REFERRAL_BONUS else 0)
          + (if commissionOf ⌊(100 : ℚ)⌋ > 0 then commissionOf ⌊(100 : ℚ)⌋ else 0)
        total_earned := refUserA.total_earned
          + (if refUserB.lifetime_earnings + ⌊(100 : ℚ)⌋ ≥ REFERRAL_THRESHOLD ∧
                refUserB.referral_unlocked = false
             then REFERRAL_BONUS else 0)
          + (if commissionOf ⌊(100 : ℚ)⌋ > 0 then commissionOf ⌊(100 : ℚ)⌋ else 0) } ∧
    ∃ u2, findUser (postback sampleCfg 7 refReq refDB).2 (refReq.user_id.getD "") = some u2 ∧
      u2.lifetime_earnings = refUserB.lifetime_earnings + ⌊(100 : ℚ)⌋ ∧
      u2.balance = refUserB.balance + ⌊(100 : ℚ)⌋ :=
  referral_credit_frame sampleCfg 7 refReq refDB 100 refUserB refUserA "r1"
    (by decide) (by decide) (by decide) (by decide) (by decide) (Or.inl rfl) rfl
    (by norm_num) (by decide) (by decide) (by decide) (by decide) (by decide)

end LootQuest
